import Mathlib

/-!
Verification of the persistence subsystem of `gold-pass-bot`
(`src/storage.rs`, `src/tags.rs`).

Modelling conventions:
* Rust `usize` values are `Nat`; where the source performs unsigned
  subtraction that can underflow (a panic in the source), the embedding
  returns `Option` with `none` for the panic branch.  Parsing models the
  `usize::MAX` overflow bound `2 ^ 64` explicitly.
* `HashMap` / `BTreeMap` fields are association lists; `HashMap::insert`
  is replace-or-append.
* JSON is embedded as a value tree (`Json`), the level at which
  `serde_json` structural (de)serialization operates.
* `Time` is not part of the available source; it is modelled from the
  spec as an opaque event start-time key that serializes as its string.
-/

namespace GoldPass

/-- Decimal digits of `n`, least significant first; empty for `0`. -/
def digitsRev (n : Nat) : List Nat :=
  if h : n = 0 then [] else n % 10 :: digitsRev (n / 10)
termination_by n
decreasing_by exact Nat.div_lt_self (Nat.pos_of_ne_zero h) (by decide)

/-- The ASCII character for a decimal digit `d < 10`. -/
def digitChar (d : Nat) : Char := Char.ofNat (48 + d)

/-- Decimal rendering of `n`, most significant digit first (as `{}` in Rust). -/
def natToChars (n : Nat) : List Char :=
  if n = 0 then ['0'] else ((digitsRev n).reverse).map digitChar

/-- Zero padding to width `w`, as Rust's `{:0w}` format specifier. -/
def padZeros (w : Nat) (cs : List Char) : List Char :=
  List.replicate (w - cs.length) '0' ++ cs

structure Season where
  year : Nat
  month : Nat
deriving DecidableEq

/-- `Serialize for Season`: the string `format!("{:04}-{:02}", year, month)`. -/
def Season.serialize (s : Season) : String :=
  ⟨padZeros 4 (natToChars s.year) ++ '-' :: padZeros 2 (natToChars s.month)⟩

/-- Rust `str::parse::<usize>`: an optional leading `+`, then one or more
ASCII digits, failing on any other character or on overflow past
`usize::MAX` (modelled as the bound `2 ^ 64`). -/
def parseUsize (s : String) : Option Nat :=
  let cs := s.data
  let cs := if cs.head? = some '+' then cs.tail else cs
  if cs = [] then none
  else if cs.all Char.isDigit then
    let v := cs.foldl (fun a c => a * 10 + (c.toNat - 48)) 0
    if v < 2 ^ 64 then some v else none
  else none

/-- Rust `str::split_once`: split at the first occurrence of `sep`. -/
def splitOnce (cs : List Char) (sep : Char) : Option (List Char × List Char) :=
  match cs with
  | [] => none
  | c :: rest =>
    if c = sep then some ([], rest)
    else (splitOnce rest sep).map (fun p => (c :: p.1, p.2))

/-- `Deserialize for Season`: split the raw string at the first `-` and
parse both sides as `usize`; no range check on the month. -/
def Season.deserialize (s : String) : Option Season :=
  match splitOnce s.data '-' with
  | none => none
  | some (ycs, mcs) =>
    match parseUsize ⟨ycs⟩, parseUsize ⟨mcs⟩ with
    | some year, some month => some ⟨year, month⟩
    | _, _ => none

/-- `Season::previous`: `month - 1`, rolling back to month 12 of `year - 1`
when the month underflows below 1.  `none` models the unsigned-subtraction
underflow panic (`month = 0` at `month - 1`, or `year = 0` at `year -= 1`). -/
def Season.previous (s : Season) : Option Season :=
  if s.month = 0 then none
  else
    let m := s.month - 1
    if m < 1 then
      if s.year = 0 then none else some ⟨s.year - 1, 12⟩
    else some ⟨s.year, m⟩

/- ### Tags (`src/tags.rs`) -/

structure ClanTag where
  tag : String
deriving DecidableEq

structure WarTag where
  tag : String
deriving DecidableEq

structure PlayerTag where
  tag : String
deriving DecidableEq

/-- Rust `v.starts_with("#")`: the string's first character is the
sigil (for the one-character pattern this is exactly a head check). -/
def startsWithSigil (v : String) : Bool :=
  v.data.head? = some '#'

/-- `TagVisitor::visit_str` / `visit_string`: accept the string iff it
starts with `#`, returning it unchanged. -/
def tagVisitor (v : String) : Option String :=
  if startsWithSigil v then some v else none

/-- `Deserialize for ClanTag`. -/
def ClanTag.deserialize (s : String) : Option ClanTag :=
  (tagVisitor s).map ClanTag.mk

/-- `Deserialize for WarTag`. -/
def WarTag.deserialize (s : String) : Option WarTag :=
  (tagVisitor s).map WarTag.mk

/-- `Deserialize for PlayerTag`. -/
def PlayerTag.deserialize (s : String) : Option PlayerTag :=
  (tagVisitor s).map PlayerTag.mk

/- ### The Storage data model (`src/storage.rs`) -/

/-- Modelled from the spec: `Time` is not part of the available source;
the spec describes it only as an event start-time used as an ordered map
key.  It is embedded as an opaque string that serializes as itself. -/
abbrev Time := String

/-- Association-list lookup, modelling `HashMap::get` / `BTreeMap::get`. -/
def lookupA {α β : Type} [DecidableEq α] : List (α × β) → α → Option β
  | [], _ => none
  | (k, v) :: rest, key => if key = k then some v else lookupA rest key

/-- Association-list insertion, modelling `HashMap::insert`:
replace the value at an existing key, otherwise append the binding. -/
def insertA {α β : Type} [DecidableEq α] (l : List (α × β)) (k : α) (v : β) :
    List (α × β) :=
  match l with
  | [] => [(k, v)]
  | (k', v') :: rest => if k = k' then (k, v) :: rest else (k', v') :: insertA rest k v

structure WarAttack where
  destruction : Nat
  stars : Nat
  duration : Nat
deriving DecidableEq

structure MemberWarStats where
  attacks : List WarAttack
deriving DecidableEq

structure CwlWarStats where
  members : List (PlayerTag × MemberWarStats)
deriving DecidableEq

structure CwlStats where
  wars : List CwlWarStats
deriving DecidableEq

structure WarStats where
  start_time : Time
  members : List (PlayerTag × MemberWarStats)
deriving DecidableEq

structure PlayerGamesStats where
  start_score : Option Nat
  end_score : Nat
deriving DecidableEq

structure RaidMember where
  looted : Nat
deriving DecidableEq

structure RaidWeekendStats where
  start_time : Time
  members : List (PlayerTag × RaidMember)
deriving DecidableEq

structure ClanStorage where
  cwl : CwlStats
  wars : List (Time × WarStats)
  games : List (PlayerTag × PlayerGamesStats)
  raid_weekend : List (Time × RaidWeekendStats)
  player_names : List (PlayerTag × String)
deriving DecidableEq

structure Storage where
  clans : List (ClanTag × List (Season × ClanStorage))
deriving DecidableEq

/-- `ClanStorage::default()`: every field empty. -/
def ClanStorage.default : ClanStorage := ⟨⟨[]⟩, [], [], [], []⟩

/-- `Storage::empty`. -/
def Storage.empty : Storage := ⟨[]⟩

/-- `Storage::register_clan`: no-op when the tag is already present,
otherwise insert an empty season map. -/
def Storage.register_clan (s : Storage) (tag : ClanTag) : Storage :=
  if (lookupA s.clans tag).isSome then s else ⟨insertA s.clans tag []⟩

/-- `Storage::get_mut`: `none` when the tag is unregistered; otherwise
insert a default `ClanStorage` for the season when absent and return the
entry.  The mutation through the `&mut` borrow is made explicit by
returning the updated `Storage` alongside the result. -/
def Storage.get_mut (s : Storage) (tag : ClanTag) (season : Season) :
    Storage × Option ClanStorage :=
  match lookupA s.clans tag with
  | none => (s, none)
  | some seasons =>
    let seasons' :=
      if (lookupA seasons season).isSome then seasons
      else insertA seasons season ClanStorage.default
    (⟨insertA s.clans tag seasons'⟩, lookupA seasons' season)

/-- `Storage::get`: read-only nested lookup. -/
def Storage.get (s : Storage) (tag : ClanTag) (season : Season) :
    Option ClanStorage :=
  (lookupA s.clans tag).bind (fun m => lookupA m season)

/-- Embeds a call to `Storage::get`, which takes `&self`: the state
component is the storage after the call, unchanged because a shared
borrow cannot mutate it. -/
def Storage.getCall (s : Storage) (tag : ClanTag) (season : Season) :
    Storage × Option ClanStorage :=
  (s, s.get tag season)

/- ### Player summaries -/

structure PlayerSummary where
  cwl_stars : Nat
  war_stars : Nat
  raid_loot : Nat
  games_score : Nat
deriving DecidableEq

/-- Rust `usize` subtraction: `none` models the underflow panic. -/
def checkedSub (a b : Nat) : Option Nat :=
  if b ≤ a then some (a - b) else none

/-- The per-member computation inside `ClanStorage::players_summary`;
`none` models the panic of the unguarded `end_score - start_score`
subtraction when it underflows. -/
def ClanStorage.playerSummary (cs : ClanStorage) (ptag : PlayerTag) :
    Option PlayerSummary :=
  let cwl_stars : Nat := (cs.cwl.wars.map (fun war =>
    match lookupA war.members ptag with
    | some mstats => (mstats.attacks.map (fun a => a.stars)).sum
    | none => 0)).sum
  let war_stars : Nat := ((cs.wars.map Prod.snd).map (fun war =>
    match lookupA war.members ptag with
    | some mstats => (mstats.attacks.map (fun att => att.stars)).sum
    | none => 0)).sum
  let raid_loot : Nat := ((cs.raid_weekend.map Prod.snd).map (fun raid =>
    match lookupA raid.members ptag with
    | some rstats => rstats.looted
    | none => 0)).sum
  let score : Option Nat :=
    match lookupA cs.games ptag with
    | some s => checkedSub s.end_score (s.start_score.getD s.end_score)
    | none => some 0
  score.map (fun g => ⟨cwl_stars, war_stars, raid_loot, g⟩)

/-- `ClanStorage::players_summary`: the member universe is the set of
keys of `player_names` (the `HashSet` collect is modelled by `dedup`);
each member is paired with its summary computation. -/
def ClanStorage.players_summary (cs : ClanStorage) :
    List (PlayerTag × Option PlayerSummary) :=
  ((cs.player_names.map Prod.fst).dedup).map (fun p => (p, cs.playerSummary p))

/- ### JSON serialization (`serde_json` at the value-tree level) -/

inductive Json where
  | null : Json
  | num (n : Nat) : Json
  | str (s : String) : Json
  | arr (items : List Json) : Json
  | obj (fields : List (String × Json)) : Json

/-- Field access on a JSON object, as the derived `Deserialize`
matches struct fields by name. -/
def Json.getField (j : Json) (name : String) : Option Json :=
  match j with
  | .obj fs => lookupA fs name
  | _ => none

def Json.asNat : Json → Option Nat
  | .num n => some n
  | _ => none

def Json.asStr : Json → Option String
  | .str s => some s
  | _ => none

def Json.asArr : Json → Option (List Json)
  | .arr l => some l
  | _ => none

def Json.asObj : Json → Option (List (String × Json))
  | .obj l => some l
  | _ => none

/-- Fallible traversal of a list, as deserializing a JSON sequence /
map visits its elements in order and fails on the first error. -/
def optMapM {α β : Type} (f : α → Option β) : List α → Option (List β)
  | [] => some []
  | x :: xs => do
    let y ← f x
    let ys ← optMapM f xs
    pure (y :: ys)

def WarAttack.toJson (a : WarAttack) : Json :=
  .obj [("destruction", .num a.destruction), ("stars", .num a.stars),
        ("duration", .num a.duration)]

def WarAttack.fromJson (j : Json) : Option WarAttack := do
  let d ← (j.getField ("destruction")).bind Json.asNat
  let s ← (j.getField ("stars")).bind Json.asNat
  let du ← (j.getField ("duration")).bind Json.asNat
  pure ⟨d, s, du⟩

def MemberWarStats.toJson (m : MemberWarStats) : Json :=
  .obj [("attacks", .arr (m.attacks.map WarAttack.toJson))]

def MemberWarStats.fromJson (j : Json) : Option MemberWarStats := do
  let a ← (j.getField ("attacks")).bind Json.asArr
  let attacks ← optMapM WarAttack.fromJson a
  pure ⟨attacks⟩

/-- A `HashMap<PlayerTag, MemberWarStats>` serializes as an object whose
keys are the raw tag strings. -/
def membersToJson (ms : List (PlayerTag × MemberWarStats)) : Json :=
  .obj (ms.map (fun kv => (kv.1.tag, kv.2.toJson)))

/-- One entry of a serialized `HashMap<PlayerTag, MemberWarStats>`. -/
def memberEntryFromJson (kv : String × Json) :
    Option (PlayerTag × MemberWarStats) := do
  let t ← PlayerTag.deserialize kv.1
  let m ← MemberWarStats.fromJson kv.2
  pure (t, m)

def membersFromJson (j : Json) : Option (List (PlayerTag × MemberWarStats)) := do
  let fs ← j.asObj
  optMapM memberEntryFromJson fs

def CwlWarStats.toJson (w : CwlWarStats) : Json :=
  .obj [("members", membersToJson w.members)]

def CwlWarStats.fromJson (j : Json) : Option CwlWarStats := do
  let ms ← (j.getField ("members")).bind membersFromJson
  pure ⟨ms⟩

def CwlStats.toJson (c : CwlStats) : Json :=
  .obj [("wars", .arr (c.wars.map CwlWarStats.toJson))]

def CwlStats.fromJson (j : Json) : Option CwlStats := do
  let ws ← (j.getField ("wars")).bind Json.asArr
  let wars ← optMapM CwlWarStats.fromJson ws
  pure ⟨wars⟩

def WarStats.toJson (w : WarStats) : Json :=
  .obj [("start_time", .str w.start_time), ("members", membersToJson w.members)]

def WarStats.fromJson (j : Json) : Option WarStats := do
  let st ← (j.getField ("start_time")).bind Json.asStr
  let ms ← (j.getField ("members")).bind membersFromJson
  pure ⟨st, ms⟩

def PlayerGamesStats.toJson (g : PlayerGamesStats) : Json :=
  .obj [("start_score", match g.start_score with
          | some n => .num n
          | none => .null),
        ("end_score", .num g.end_score)]

def PlayerGamesStats.fromJson (j : Json) : Option PlayerGamesStats := do
  let ss ← match j.getField ("start_score") with
    | some .null => some none
    | some (.num n) => some (some n)
    | _ => none
  let es ← (j.getField ("end_score")).bind Json.asNat
  pure ⟨ss, es⟩

def RaidMember.toJson (r : RaidMember) : Json :=
  .obj [("looted", .num r.looted)]

def RaidMember.fromJson (j : Json) : Option RaidMember := do
  let l ← (j.getField ("looted")).bind Json.asNat
  pure ⟨l⟩

def RaidWeekendStats.toJson (r : RaidWeekendStats) : Json :=
  .obj [("start_time", .str r.start_time),
        ("members", .obj (r.members.map (fun kv => (kv.1.tag, kv.2.toJson))))]

/-- One entry of a serialized `HashMap<PlayerTag, RaidMember>`. -/
def raidEntryFromJson (kv : String × Json) : Option (PlayerTag × RaidMember) := do
  let t ← PlayerTag.deserialize kv.1
  let m ← RaidMember.fromJson kv.2
  pure (t, m)

def RaidWeekendStats.fromJson (j : Json) : Option RaidWeekendStats := do
  let st ← (j.getField ("start_time")).bind Json.asStr
  let fs ← (j.getField ("members")).bind Json.asObj
  let ms ← optMapM raidEntryFromJson fs
  pure ⟨st, ms⟩

def ClanStorage.toJson (cs : ClanStorage) : Json :=
  .obj [("cwl", cs.cwl.toJson),
        ("wars", .obj (cs.wars.map (fun kv => (kv.1, kv.2.toJson)))),
        ("games", .obj (cs.games.map (fun kv => (kv.1.tag, kv.2.toJson)))),
        ("raid_weekend", .obj (cs.raid_weekend.map (fun kv => (kv.1, kv.2.toJson)))),
        ("player_names", .obj (cs.player_names.map (fun kv => (kv.1.tag, .str kv.2))))]

/-- One entry of the serialized `BTreeMap<Time, WarStats>`. -/
def warsEntryFromJson (kv : String × Json) : Option (Time × WarStats) := do
  let w ← WarStats.fromJson kv.2
  pure ((kv.1 : Time), w)

/-- One entry of the serialized `HashMap<PlayerTag, PlayerGamesStats>`. -/
def gamesEntryFromJson (kv : String × Json) :
    Option (PlayerTag × PlayerGamesStats) := do
  let t ← PlayerTag.deserialize kv.1
  let g ← PlayerGamesStats.fromJson kv.2
  pure (t, g)

/-- One entry of the serialized `BTreeMap<Time, RaidWeekendStats>`. -/
def raidWeekendEntryFromJson (kv : String × Json) :
    Option (Time × RaidWeekendStats) := do
  let r ← RaidWeekendStats.fromJson kv.2
  pure ((kv.1 : Time), r)

/-- One entry of the serialized `HashMap<PlayerTag, String>`. -/
def nameEntryFromJson (kv : String × Json) : Option (PlayerTag × String) := do
  let t ← PlayerTag.deserialize kv.1
  let n ← kv.2.asStr
  pure (t, n)

def ClanStorage.fromJson (j : Json) : Option ClanStorage := do
  let cwl ← (j.getField ("cwl")).bind CwlStats.fromJson
  let warsFields ← (j.getField ("wars")).bind Json.asObj
  let wars ← optMapM warsEntryFromJson warsFields
  let gamesFields ← (j.getField ("games")).bind Json.asObj
  let games ← optMapM gamesEntryFromJson gamesFields
  let raidFields ← (j.getField ("raid_weekend")).bind Json.asObj
  let raids ← optMapM raidWeekendEntryFromJson raidFields
  let nameFields ← (j.getField ("player_names")).bind Json.asObj
  let names ← optMapM nameEntryFromJson nameFields
  pure ⟨cwl, wars, games, raids, names⟩

/-- `Serialize for Storage` (derived): the nested maps become objects,
Season keys become their `YYYY-MM` strings, tag keys their raw strings. -/
def Storage.toJson (s : Storage) : Json :=
  .obj [("clans", .obj (s.clans.map (fun kv =>
    (kv.1.tag, Json.obj (kv.2.map (fun sm => (sm.1.serialize, sm.2.toJson)))))))]

/-- One entry of a serialized `HashMap<Season, ClanStorage>`. -/
def seasonEntryFromJson (kv : String × Json) :
    Option (Season × ClanStorage) := do
  let se ← Season.deserialize kv.1
  let cst ← ClanStorage.fromJson kv.2
  pure (se, cst)

/-- One entry of the serialized `HashMap<ClanTag, HashMap<Season, ClanStorage>>`. -/
def clanEntryFromJson (kv : String × Json) :
    Option (ClanTag × List (Season × ClanStorage)) := do
  let t ← ClanTag.deserialize kv.1
  let seasonsFields ← kv.2.asObj
  let seasons ← optMapM seasonEntryFromJson seasonsFields
  pure (t, seasons)

/-- `Deserialize for Storage` (derived). -/
def Storage.fromJson (j : Json) : Option Storage := do
  let clansFields ← (j.getField ("clans")).bind Json.asObj
  let clans ← optMapM clanEntryFromJson clansFields
  pure ⟨clans⟩

/- ### Validity (the claims' notion of a valid `Storage` value) -/

/-- A tag string carries the leading sigil. -/
def validTag (t : String) : Bool := startsWithSigil t

/-- A Season key as the claims require: `usize`-representable year and a
month in `[1, 12]`. -/
def Season.validKey (se : Season) : Bool :=
  decide (se.year < 2 ^ 64) && decide (1 ≤ se.month) && decide (se.month ≤ 12)

def ClanStorage.valid (cs : ClanStorage) : Bool :=
  cs.cwl.wars.all (fun w => w.members.all (fun kv => validTag kv.1.tag))
  && cs.wars.all (fun kv => kv.2.members.all (fun m => validTag m.1.tag))
  && cs.games.all (fun kv => validTag kv.1.tag)
  && cs.raid_weekend.all (fun kv => kv.2.members.all (fun m => validTag m.1.tag))
  && cs.player_names.all (fun kv => validTag kv.1.tag)

/-- Every contained tag starts with `#` and every Season key is valid. -/
def Storage.valid (s : Storage) : Bool :=
  s.clans.all (fun kv => validTag kv.1.tag
    && kv.2.all (fun sm => sm.1.validKey && sm.2.valid))

/- ### Sample data for concrete evaluations -/

/-- Member with 3+3 = 6 CWL stars, 4 war stars, 1000 raid loot and a
games record of start 50 / end 120. -/
def clanSampleB : ClanStorage :=
  { cwl := ⟨[⟨[(⟨"#P1"⟩, ⟨[⟨50, 3, 60⟩, ⟨70, 3, 45⟩]⟩)]⟩]⟩,
    wars := [("2024-05-01", ⟨"2024-05-01", [(⟨"#P1"⟩, ⟨[⟨80, 4, 30⟩]⟩)]⟩)],
    games := [(⟨"#P1"⟩, ⟨some 50, 120⟩)],
    raid_weekend := [("2024-05-03", ⟨"2024-05-03", [(⟨"#P1"⟩, ⟨1000⟩)]⟩)],
    player_names := [(⟨"#P1"⟩, "Avery")] }

/-- A one-clan storage holding `clanSampleB` under season 2024-05. -/
def storageSample : Storage :=
  ⟨[(⟨"#C1A"⟩, [(⟨2024, 5⟩, clanSampleB)])]⟩

/-- Member whose games record has `start_score` above `end_score`. -/
def clanSampleD : ClanStorage :=
  { cwl := ⟨[]⟩,
    wars := [],
    games := [(⟨"#P2"⟩, ⟨some 50, 10⟩)],
    raid_weekend := [],
    player_names := [(⟨"#P2"⟩, "Rae")] }

/- ### Digit-level lemmas for the Season round trip -/

theorem digitsRev_lt_ten (n : Nat) : ∀ d ∈ digitsRev n, d < 10 := by
  induction n using Nat.strong_induction_on with
  | _ n ih =>
    intro d hd
    rw [digitsRev] at hd
    by_cases h : n = 0
    · simp [h] at hd
    · simp only [h, dite_false] at hd
      rcases List.mem_cons.mp hd with rfl | hmem
      · exact Nat.mod_lt _ (by decide)
      · exact ih (n / 10) (Nat.div_lt_self (Nat.pos_of_ne_zero h) (by decide)) d hmem

theorem digitsRev_foldl (n : Nat) :
    ∀ a : Nat, (digitsRev n).reverse.foldl (fun a d => a * 10 + d) a =
      a * 10 ^ (digitsRev n).length + n := by
  induction n using Nat.strong_induction_on with
  | _ n ih =>
    intro a
    rw [digitsRev]
    by_cases h : n = 0
    · simp [h]
    · simp only [h, dite_false, List.reverse_cons, List.foldl_append, List.length_cons]
      rw [ih (n / 10) (Nat.div_lt_self (Nat.pos_of_ne_zero h) (by decide)) a]
      simp only [List.foldl_cons, List.foldl_nil]
      rw [pow_succ]
      have hdm := Nat.div_add_mod n 10
      ring_nf
      omega

theorem toNat_digitChar (d : Nat) (hd : d < 10) : (digitChar d).toNat = 48 + d := by
  interval_cases d <;> decide

theorem isDigit_digitChar (d : Nat) (hd : d < 10) : (digitChar d).isDigit = true := by
  interval_cases d <;> decide

theorem natToChars_all_digits (n : Nat) : (natToChars n).all Char.isDigit = true := by
  unfold natToChars
  by_cases h : n = 0
  · simp [h]
  · simp only [h, if_false, List.all_eq_true]
    intro c hc
    rcases List.mem_map.mp hc with ⟨d, hd, rfl⟩
    exact isDigit_digitChar d (digitsRev_lt_ten n d (List.mem_reverse.mp hd))

theorem natToChars_ne_nil (n : Nat) : natToChars n ≠ [] := by
  unfold natToChars
  by_cases h : n = 0
  · simp [h]
  · simp only [h, if_false]
    intro hc
    have hnil : digitsRev n = [] := by
      simpa [List.map_eq_nil_iff, List.reverse_eq_nil_iff] using hc
    rw [digitsRev] at hnil
    simp [h] at hnil

theorem natToChars_foldl (n : Nat) :
    (natToChars n).foldl (fun a c => a * 10 + (c.toNat - 48)) 0 = n := by
  unfold natToChars
  by_cases h : n = 0
  · simp [h]
  · simp only [h, if_false]
    have key : ∀ (ds : List Nat) (a : Nat), (∀ d ∈ ds, d < 10) →
        (ds.map digitChar).foldl (fun a c => a * 10 + (c.toNat - 48)) a =
          ds.foldl (fun a d => a * 10 + d) a := by
      intro ds
      induction ds with
      | nil => intro a _; rfl
      | cons d rest ihd =>
        intro a hds
        simp only [List.map_cons, List.foldl_cons]
        rw [toNat_digitChar d (hds d (List.mem_cons_self _ _))]
        rw [ihd _ (fun x hx => hds x (List.mem_cons_of_mem _ hx))]
        congr 1
        omega
    rw [key _ 0 (fun d hd => digitsRev_lt_ten n d (List.mem_reverse.mp hd))]
    rw [digitsRev_foldl n 0]
    simp

theorem foldl_replicate_zero (k : Nat) (cs : List Char) :
    (List.replicate k '0' ++ cs).foldl (fun a c => a * 10 + (c.toNat - 48)) 0 =
      cs.foldl (fun a c => a * 10 + (c.toNat - 48)) 0 := by
  induction k with
  | zero => rfl
  | succ k ihk => simpa [List.replicate_succ] using ihk

theorem parseUsize_pad (n : Nat) (k : Nat) (hn : n < 2 ^ 64) :
    parseUsize ⟨List.replicate k '0' ++ natToChars n⟩ = some n := by
  unfold parseUsize
  have hne : List.replicate k '0' ++ natToChars n ≠ [] := by
    intro hcontra
    exact natToChars_ne_nil n (List.append_eq_nil.mp hcontra).2
  have hdigits : (List.replicate k '0' ++ natToChars n).all Char.isDigit = true := by
    rw [List.all_append, Bool.and_eq_true]
    refine ⟨?_, natToChars_all_digits n⟩
    simp only [List.all_eq_true]
    intro c hc
    rw [List.eq_of_mem_replicate hc]
    decide
  have hhead : (List.replicate k '0' ++ natToChars n).head? ≠ some '+' := by
    intro hcontra
    have hplus : '+' ∈ List.replicate k '0' ++ natToChars n :=
      List.mem_of_mem_head? hcontra
    have : ('+' : Char).isDigit = true := by
      have := List.all_eq_true.mp hdigits
      exact this _ hplus
    exact absurd this (by decide)
  simp only [String.data]
  rw [if_neg hhead, if_neg hne, if_pos hdigits]
  rw [foldl_replicate_zero, natToChars_foldl n]
  exact if_pos hn

theorem mem_natToChars_isDigit (n : Nat) (c : Char) (hc : c ∈ natToChars n) :
    c.isDigit = true := by
  have := List.all_eq_true.mp (natToChars_all_digits n)
  exact this c hc

theorem splitOnce_append (l1 l2 : List Char) (sep : Char) (h : sep ∉ l1) :
    splitOnce (l1 ++ sep :: l2) sep = some (l1, l2) := by
  induction l1 with
  | nil => simp [splitOnce]
  | cons c rest ihc =>
    have hc : ¬(c = sep) := fun hcc => h (hcc ▸ List.mem_cons_self _ _)
    have hrest : sep ∉ rest := fun hm => h (List.mem_cons_of_mem _ hm)
    simp only [List.cons_append, splitOnce, hc, if_false, List.append_eq,
      ihc hrest]
    rfl

/-- The padded rendering contains no `-` (all characters are digits). -/
theorem dash_not_mem_pad (w : Nat) (n : Nat) : '-' ∉ padZeros w (natToChars n) := by
  intro hmem
  unfold padZeros at hmem
  rcases List.mem_append.mp hmem with hrep | hdig
  · exact absurd (List.eq_of_mem_replicate hrep) (by decide)
  · exact absurd (mem_natToChars_isDigit n _ hdig) (by decide)

/-- Shared helper: formatting then parsing a Season recovers it, for any
`usize` year and month (no month-range condition is needed). -/
theorem season_parse_format (se : Season) (hy : se.year < 2 ^ 64)
    (hm : se.month < 2 ^ 64) :
    Season.deserialize (Season.serialize se) = some se := by
  unfold Season.serialize Season.deserialize
  simp only [String.data]
  rw [splitOnce_append _ _ _ (dash_not_mem_pad 4 se.year)]
  unfold padZeros
  simp only [parseUsize_pad se.year _ hy, parseUsize_pad se.month _ hm]

/- ### Round-trip lemmas for the JSON embedding -/

theorem optMapM_roundtrip {α β : Type} (f : α → β) (g : β → Option α) :
    ∀ (l : List α), (∀ x ∈ l, g (f x) = some x) → optMapM g (l.map f) = some l := by
  intro l
  induction l with
  | nil => intro _; rfl
  | cons x xs ih =>
    intro h
    simp only [List.map_cons, optMapM]
    rw [h x (List.mem_cons_self _ _), ih (fun y hy => h y (List.mem_cons_of_mem _ hy))]
    rfl

theorem warAttack_roundtrip (a : WarAttack) : WarAttack.fromJson a.toJson = some a := by
  simp [WarAttack.fromJson, WarAttack.toJson, Json.getField, lookupA, Json.asNat]

theorem memberWarStats_roundtrip (m : MemberWarStats) :
    MemberWarStats.fromJson m.toJson = some m := by
  have hm := optMapM_roundtrip WarAttack.toJson WarAttack.fromJson m.attacks
    (fun a _ => warAttack_roundtrip a)
  simp [MemberWarStats.fromJson, MemberWarStats.toJson, Json.getField, lookupA,
    Json.asArr, hm]

theorem playerTag_roundtrip (t : PlayerTag) (h : validTag t.tag = true) :
    PlayerTag.deserialize t.tag = some t := by
  unfold validTag at h
  simp [PlayerTag.deserialize, tagVisitor, h]

theorem clanTag_roundtrip (t : ClanTag) (h : validTag t.tag = true) :
    ClanTag.deserialize t.tag = some t := by
  unfold validTag at h
  simp [ClanTag.deserialize, tagVisitor, h]

theorem memberEntry_roundtrip (kv : PlayerTag × MemberWarStats)
    (h : validTag kv.1.tag = true) :
    memberEntryFromJson (kv.1.tag, kv.2.toJson) = some kv := by
  simp [memberEntryFromJson, playerTag_roundtrip kv.1 h,
    memberWarStats_roundtrip kv.2]

theorem members_roundtrip (ms : List (PlayerTag × MemberWarStats))
    (h : ms.all (fun kv => validTag kv.1.tag) = true) :
    membersFromJson (membersToJson ms) = some ms := by
  have hmm := optMapM_roundtrip (fun kv => (kv.1.tag, kv.2.toJson))
    memberEntryFromJson ms (fun kv hkv => by
      have hv : validTag kv.1.tag = true := by
        simpa using List.all_eq_true.mp h kv hkv
      exact memberEntry_roundtrip kv hv)
  simp [membersToJson, membersFromJson, Json.asObj, hmm]

theorem cwlWarStats_roundtrip (w : CwlWarStats)
    (h : w.members.all (fun kv => validTag kv.1.tag) = true) :
    CwlWarStats.fromJson w.toJson = some w := by
  simp [CwlWarStats.fromJson, CwlWarStats.toJson, Json.getField, lookupA,
    members_roundtrip w.members h]

theorem cwlStats_roundtrip (c : CwlStats)
    (h : c.wars.all (fun w => w.members.all (fun kv => validTag kv.1.tag)) = true) :
    CwlStats.fromJson c.toJson = some c := by
  have hws := optMapM_roundtrip CwlWarStats.toJson CwlWarStats.fromJson c.wars
    (fun w hw => cwlWarStats_roundtrip w (by simpa using List.all_eq_true.mp h w hw))
  simp [CwlStats.fromJson, CwlStats.toJson, Json.getField, lookupA, Json.asArr, hws]

theorem warStats_roundtrip (w : WarStats)
    (h : w.members.all (fun kv => validTag kv.1.tag) = true) :
    WarStats.fromJson w.toJson = some w := by
  simp [WarStats.fromJson, WarStats.toJson, Json.getField, lookupA, Json.asStr,
    members_roundtrip w.members h]

theorem playerGamesStats_roundtrip (g : PlayerGamesStats) :
    PlayerGamesStats.fromJson g.toJson = some g := by
  cases g with
  | mk ss es =>
    cases ss <;>
      simp [PlayerGamesStats.fromJson, PlayerGamesStats.toJson, Json.getField,
        lookupA, Json.asNat]

theorem raidMember_roundtrip (r : RaidMember) :
    RaidMember.fromJson r.toJson = some r := by
  simp [RaidMember.fromJson, RaidMember.toJson, Json.getField, lookupA, Json.asNat]

theorem raidEntry_roundtrip (kv : PlayerTag × RaidMember)
    (h : validTag kv.1.tag = true) :
    raidEntryFromJson (kv.1.tag, kv.2.toJson) = some kv := by
  simp [raidEntryFromJson, playerTag_roundtrip kv.1 h, raidMember_roundtrip kv.2]

theorem raidWeekendStats_roundtrip (r : RaidWeekendStats)
    (h : r.members.all (fun kv => validTag kv.1.tag) = true) :
    RaidWeekendStats.fromJson r.toJson = some r := by
  have hms := optMapM_roundtrip (fun kv => (kv.1.tag, kv.2.toJson))
    raidEntryFromJson r.members (fun kv hkv => by
      have hv : validTag kv.1.tag = true := by
        simpa using List.all_eq_true.mp h kv hkv
      exact raidEntry_roundtrip kv hv)
  simp [RaidWeekendStats.fromJson, RaidWeekendStats.toJson, Json.getField,
    lookupA, Json.asStr, Json.asObj, hms]

theorem clanStorage_roundtrip (cs : ClanStorage) (h : cs.valid = true) :
    ClanStorage.fromJson cs.toJson = some cs := by
  unfold ClanStorage.valid at h
  simp only [Bool.and_eq_true] at h
  obtain ⟨⟨⟨⟨h1, h2⟩, h3⟩, h4⟩, h5⟩ := h
  have hwars := optMapM_roundtrip (fun kv => (kv.1, kv.2.toJson))
    warsEntryFromJson cs.wars (fun kv hkv => by
      have hv := List.all_eq_true.mp h2 kv hkv
      simp [warsEntryFromJson, warStats_roundtrip kv.2 (by simpa using hv)])
  have hgames := optMapM_roundtrip (fun kv => (kv.1.tag, kv.2.toJson))
    gamesEntryFromJson cs.games (fun kv hkv => by
      have hv : validTag kv.1.tag = true := by
        simpa using List.all_eq_true.mp h3 kv hkv
      simp [gamesEntryFromJson, playerTag_roundtrip kv.1 hv,
        playerGamesStats_roundtrip kv.2])
  have hraid := optMapM_roundtrip (fun kv => (kv.1, kv.2.toJson))
    raidWeekendEntryFromJson cs.raid_weekend (fun kv hkv => by
      have hv := List.all_eq_true.mp h4 kv hkv
      simp [raidWeekendEntryFromJson,
        raidWeekendStats_roundtrip kv.2 (by simpa using hv)])
  have hnames := optMapM_roundtrip (fun kv => (kv.1.tag, Json.str kv.2))
    nameEntryFromJson cs.player_names (fun kv hkv => by
      have hv : validTag kv.1.tag = true := by
        simpa using List.all_eq_true.mp h5 kv hkv
      simp [nameEntryFromJson, playerTag_roundtrip kv.1 hv, Json.asStr])
  simp [ClanStorage.fromJson, ClanStorage.toJson, Json.getField, lookupA,
    Json.asObj, cwlStats_roundtrip cs.cwl h1, hwars, hgames, hraid, hnames]

theorem seasonEntry_roundtrip (sm : Season × ClanStorage)
    (hkey : sm.1.validKey = true) (hval : sm.2.valid = true) :
    seasonEntryFromJson (sm.1.serialize, sm.2.toJson) = some sm := by
  unfold Season.validKey at hkey
  simp only [Bool.and_eq_true, decide_eq_true_eq] at hkey
  simp [seasonEntryFromJson, season_parse_format sm.1 hkey.1.1 (by omega),
    clanStorage_roundtrip sm.2 hval]

theorem clanEntry_roundtrip (kv : ClanTag × List (Season × ClanStorage))
    (htag : validTag kv.1.tag = true)
    (hseasons : kv.2.all (fun sm => sm.1.validKey && sm.2.valid) = true) :
    clanEntryFromJson
      (kv.1.tag, Json.obj (kv.2.map (fun sm => (sm.1.serialize, sm.2.toJson)))) =
      some kv := by
  have hs := optMapM_roundtrip (fun sm => (sm.1.serialize, sm.2.toJson))
    seasonEntryFromJson kv.2 (fun sm hsm => by
      have hv := List.all_eq_true.mp hseasons sm hsm
      simp only [Bool.and_eq_true] at hv
      exact seasonEntry_roundtrip sm hv.1 hv.2)
  simp [clanEntryFromJson, clanTag_roundtrip kv.1 htag, Json.asObj, hs]

theorem storage_roundtrip_aux (s : Storage) (h : s.valid = true) :
    Storage.fromJson s.toJson = some s := by
  unfold Storage.valid at h
  have hc := optMapM_roundtrip
    (fun kv => (kv.1.tag, Json.obj (kv.2.map (fun sm => (sm.1.serialize, sm.2.toJson)))))
    clanEntryFromJson s.clans (fun kv hkv => by
      have hv := List.all_eq_true.mp h kv hkv
      simp only [Bool.and_eq_true] at hv
      exact clanEntry_roundtrip kv hv.1 hv.2)
  simp [Storage.fromJson, Storage.toJson, Json.getField, lookupA, Json.asObj, hc]

/- ### Association-list lemmas for the storage model -/

theorem lookupA_insertA_self {α β : Type} [DecidableEq α]
    (l : List (α × β)) (k : α) (v : β) :
    lookupA (insertA l k v) k = some v := by
  induction l with
  | nil => simp [insertA, lookupA]
  | cons kv rest ih =>
    obtain ⟨k', v'⟩ := kv
    by_cases hk : k = k'
    · simp [insertA, hk, lookupA]
    · simp [insertA, hk, lookupA, ih]

/- ### Sum-reshaping lemmas for the player summary -/

theorem starsSum_eq_bindSum {α : Type} (l : List α) (f : α → Option MemberWarStats) :
    (l.map (fun x =>
      match f x with
      | some m => (m.attacks.map (fun a => a.stars)).sum
      | none => 0)).sum =
    ((l.flatMap (fun x =>
      match f x with
      | some m => m.attacks
      | none => [])).map (fun a => a.stars)).sum := by
  induction l with
  | nil => rfl
  | cons x xs ih =>
    simp only [List.map_cons, List.sum_cons, List.flatMap_cons, List.map_append,
      List.sum_append, ih]
    cases f x <;> simp

theorem lootSum_eq_bindSum {α : Type} (l : List α) (f : α → Option RaidMember) :
    (l.map (fun x =>
      match f x with
      | some r => r.looted
      | none => 0)).sum =
    (l.flatMap (fun x => ((f x).map (fun r => r.looted)).toList)).sum := by
  induction l with
  | nil => rfl
  | cons x xs ih =>
    simp only [List.map_cons, List.sum_cons, List.flatMap_cons, List.sum_append, ih]
    cases f x <;> simp

/- ### Claim theorems -/

/-- C1: for every valid Storage value `S` (every contained tag begins
with the sigil `#` and every Season has a month in `[1, 12]`),
deserializing the JSON produced by serializing `S` yields a Storage
structurally equal to `S`. -/
theorem storage_serde_roundtrip (S : Storage) (h : S.valid = true) :
    Storage.fromJson (Storage.toJson S) = some S :=
  storage_roundtrip_aux S h

theorem storage_serde_roundtrip_witness :
    Storage.fromJson (Storage.toJson storageSample) = some storageSample :=
  storage_serde_roundtrip storageSample (by decide)

/-- C2: `Storage::get_mut` returns nothing (and leaves the storage
unchanged) when the tag was never registered; when the tag is registered
but the season entry is absent, it inserts the default all-empty
`ClanStorage` and returns it, and a subsequent read-only `get` of the
same key returns that same bundle. -/
theorem get_mut_spec (s : Storage) (tag : ClanTag) (season : Season) :
    (lookupA s.clans tag = none → s.get_mut tag season = (s, none))
    ∧ (∀ seasons, lookupA s.clans tag = some seasons →
        lookupA seasons season = none →
        (s.get_mut tag season).2 = some ClanStorage.default
        ∧ (s.get_mut tag season).1.get tag season = some ClanStorage.default) := by
  constructor
  · intro hnone
    simp [Storage.get_mut, hnone]
  · intro seasons hsome habs
    constructor <;>
      simp [Storage.get_mut, Storage.get, hsome, habs, lookupA_insertA_self]

theorem get_mut_spec_witness :
    (Storage.get_mut ⟨[(⟨"#C"⟩, [])]⟩ ⟨"#C"⟩ ⟨2024, 5⟩).2 = some ClanStorage.default
    ∧ (Storage.get_mut ⟨[(⟨"#C"⟩, [])]⟩ ⟨"#C"⟩ ⟨2024, 5⟩).1.get ⟨"#C"⟩ ⟨2024, 5⟩ =
        some ClanStorage.default :=
  (get_mut_spec ⟨[(⟨"#C"⟩, [])]⟩ ⟨"#C"⟩ ⟨2024, 5⟩).2 [] (by decide) (by decide)

/-- C3: `Storage::get` is a read-only lookup: it returns nothing when
either the tag or the season entry is absent, and the storage value
seen after the call is the one passed in, unchanged. -/
theorem get_readonly_spec (s : Storage) (tag : ClanTag) (season : Season) :
    (s.getCall tag season).1 = s
    ∧ (lookupA s.clans tag = none → s.get tag season = none)
    ∧ (∀ m, lookupA s.clans tag = some m → lookupA m season = none →
        s.get tag season = none) := by
  refine ⟨rfl, ?_, ?_⟩
  · intro h
    simp [Storage.get, h]
  · intro m hm hnone
    simp [Storage.get, hm, hnone]

theorem get_readonly_spec_witness :
    (Storage.getCall ⟨[(⟨"#C"⟩, [])]⟩ ⟨"#C"⟩ ⟨2024, 5⟩).1 = ⟨[(⟨"#C"⟩, [])]⟩
    ∧ Storage.get ⟨[(⟨"#C"⟩, [])]⟩ ⟨"#C"⟩ ⟨2024, 5⟩ = none :=
  ⟨(get_readonly_spec ⟨[(⟨"#C"⟩, [])]⟩ ⟨"#C"⟩ ⟨2024, 5⟩).1,
   (get_readonly_spec ⟨[(⟨"#C"⟩, [])]⟩ ⟨"#C"⟩ ⟨2024, 5⟩).2.2 [] (by decide) (by decide)⟩

/-- C4: the member universe of `players_summary` is exactly the key set
of `player_names`: a member tag appears in the output iff it is a key
of the display-name mapping. -/
theorem players_summary_universe (cs : ClanStorage) (p : PlayerTag) :
    (∃ r, (p, r) ∈ cs.players_summary) ↔ p ∈ cs.player_names.map Prod.fst := by
  unfold ClanStorage.players_summary
  constructor
  · rintro ⟨r, hr⟩
    rcases List.mem_map.mp hr with ⟨q, hq, heq⟩
    have hqp : q = p := congrArg Prod.fst heq
    exact List.mem_dedup.mp (hqp ▸ hq)
  · intro hp
    exact ⟨cs.playerSummary p, List.mem_map.mpr ⟨p, List.mem_dedup.mpr hp, rfl⟩⟩

/-- C5: for every member in the `player_names` keys (whose games record,
when it has a known start, satisfies `start ≤ end` so that the unsigned
subtraction is defined), `players_summary` yields the sum of stars over
all of the member's CWL attacks, the sum of stars over all of the
member's war attacks, the sum of the member's loot across all raid
events, and `end_score - start_score` as the games score (zero when the
start is unknown or no record exists). -/
theorem players_summary_field_sums (cs : ClanStorage) (p : PlayerTag)
    (hp : p ∈ cs.player_names.map Prod.fst)
    (hg : ∀ r st, lookupA cs.games p = some r → r.start_score = some st →
      st ≤ r.end_score) :
    ∃ ps : PlayerSummary,
      (p, some ps) ∈ cs.players_summary
      ∧ ps.cwl_stars = ((cs.cwl.wars.flatMap (fun war =>
          match lookupA war.members p with
          | some m => m.attacks
          | none => [])).map (fun a => a.stars)).sum
      ∧ ps.war_stars = (((cs.wars.map Prod.snd).flatMap (fun war =>
          match lookupA war.members p with
          | some m => m.attacks
          | none => [])).map (fun a => a.stars)).sum
      ∧ ps.raid_loot = ((cs.raid_weekend.map Prod.snd).flatMap (fun raid =>
          ((lookupA raid.members p).map (fun r => r.looted)).toList)).sum
      ∧ ps.games_score = (match lookupA cs.games p with
          | some r =>
            match r.start_score with
            | some st => r.end_score - st
            | none => 0
          | none => 0) := by
  have hscore : (match lookupA cs.games p with
      | some s => checkedSub s.end_score (s.start_score.getD s.end_score)
      | none => some 0) = some (match lookupA cs.games p with
      | some r =>
        match r.start_score with
        | some st => r.end_score - st
        | none => 0
      | none => 0) := by
    cases hl : lookupA cs.games p with
    | none => rfl
    | some r =>
      cases hst : r.start_score with
      | none => simp [checkedSub, hst]
      | some st =>
        have hle := hg r st hl hst
        simp [checkedSub, hst, hle]
  have hps : cs.playerSummary p = some
      ⟨(cs.cwl.wars.map (fun war =>
          match lookupA war.members p with
          | some mstats => (mstats.attacks.map (fun a => a.stars)).sum
          | none => 0)).sum,
        ((cs.wars.map Prod.snd).map (fun war =>
          match lookupA war.members p with
          | some mstats => (mstats.attacks.map (fun att => att.stars)).sum
          | none => 0)).sum,
        ((cs.raid_weekend.map Prod.snd).map (fun raid =>
          match lookupA raid.members p with
          | some rstats => rstats.looted
          | none => 0)).sum,
        (match lookupA cs.games p with
          | some r =>
            match r.start_score with
            | some st => r.end_score - st
            | none => 0
          | none => 0)⟩ := by
    simp only [ClanStorage.playerSummary, hscore]
    rfl
  refine ⟨_, List.mem_map.mpr ⟨p, List.mem_dedup.mpr hp, by rw [hps]⟩, ?_, ?_, ?_, ?_⟩
  · exact starsSum_eq_bindSum cs.cwl.wars (fun war => lookupA war.members p)
  · exact starsSum_eq_bindSum (cs.wars.map Prod.snd) (fun war => lookupA war.members p)
  · exact lootSum_eq_bindSum (cs.raid_weekend.map Prod.snd)
      (fun raid => lookupA raid.members p)
  · rfl

theorem players_summary_field_sums_witness :
    (⟨"#P1"⟩, some (⟨6, 4, 1000, 70⟩ : PlayerSummary)) ∈ clanSampleB.players_summary := by
  obtain ⟨ps, hmem, h1, h2, h3, h4⟩ :=
    players_summary_field_sums clanSampleB ⟨"#P1"⟩ (by decide)
      (fun r st hl hst => by
        have hr : r = ⟨some 50, 120⟩ := by
          have hl2 := hl
          simp [clanSampleB, lookupA] at hl2
          exact hl2.symm
        subst hr
        simp at hst ⊢
        omega)
  have e1 : ps.cwl_stars = 6 := by rw [h1]; rfl
  have e2 : ps.war_stars = 4 := by rw [h2]; rfl
  have e3 : ps.raid_loot = 1000 := by rw [h3]; rfl
  have e4 : ps.games_score = 70 := by rw [h4]; rfl
  have hps : ps = ⟨6, 4, 1000, 70⟩ := by
    obtain ⟨a, b, c, d⟩ := ps
    simp only at e1 e2 e3 e4
    simp [e1, e2, e3, e4]
  exact hps ▸ hmem

/-- C6: for every valid Season (a `usize` year, month in `[1, 12]`),
parsing the canonical zero-padded `YYYY-MM` text produced by
serializing it yields the same Season back. -/
theorem season_text_roundtrip (se : Season) (hy : se.year < 2 ^ 64)
    (hm1 : 1 ≤ se.month) (hm2 : se.month ≤ 12) :
    Season.deserialize (Season.serialize se) = some se :=
  season_parse_format se hy (by omega)

theorem season_text_roundtrip_witness :
    Season.deserialize (Season.serialize ⟨2024, 7⟩) = some ⟨2024, 7⟩ :=
  season_text_roundtrip ⟨2024, 7⟩ (by decide) (by decide) (by decide)

/-- C7 counterexample: `"2024-13"` deserializes successfully to a Season
whose month is 13, outside `[1, 12]`, although the claim requires such
an input to fail. -/
theorem season_deserialize_month13 :
    Season.deserialize ("2024-13") = some ⟨2024, 13⟩
    ∧ ¬((⟨2024, 13⟩ : Season).month ≤ 12) := by
  constructor
  · rfl
  · decide

/-- C7 (amended): Season deserialization succeeds exactly on strings
that split at their first `-` into two parts that both parse as
unsigned decimal integers; no zero-padding or month-range check is
performed, so a deserialized month may lie outside `[1, 12]`. -/
theorem season_deserialize_shape (s : String) :
    (Season.deserialize s).isSome = true ↔
      (∃ ycs mcs y m, splitOnce s.data '-' = some (ycs, mcs)
        ∧ parseUsize ⟨ycs⟩ = some y ∧ parseUsize ⟨mcs⟩ = some m) := by
  unfold Season.deserialize
  cases hsp : splitOnce s.data '-' with
  | none => simp
  | some p =>
    obtain ⟨ycs, mcs⟩ := p
    cases hy : parseUsize ⟨ycs⟩ with
    | none => simp [hy]
    | some y =>
      cases hm : parseUsize ⟨mcs⟩ with
      | none => simp [hy, hm]
      | some m =>
        simp only [hy, hm, Option.isSome_some, true_iff]
        exact ⟨ycs, mcs, y, m, rfl, hy, hm⟩

/-- C8 counterexample: at `Season{year: 0, month: 1}` (a non-negative
year and a month in `[1, 12]`) the `year -= 1` of `previous()`
underflows `usize` (a panic, modelled as `none`), so no Season at all is
returned, contradicting the claim's `Season{year-1, 12}`. -/
theorem previous_underflows_at_year_zero :
    Season.previous ⟨0, 1⟩ = none := rfl

/-- C8 (amended): `previous()` returns `Season{year, month-1}` for month
in `[2, 12]` and `Season{year-1, 12}` for month 1 provided `year ≥ 1`;
at `year = 0, month = 1` the unsigned year decrement underflows. -/
theorem previous_rolls_back (s : Season) (hm1 : 1 ≤ s.month)
    (hm2 : s.month ≤ 12) (hy : s.month = 1 → 1 ≤ s.year) :
    s.previous = some
      (if s.month = 1 then ⟨s.year - 1, 12⟩ else ⟨s.year, s.month - 1⟩) := by
  by_cases h1 : s.month = 1
  · have hy0 : ¬(s.year = 0) := by have := hy h1; omega
    simp [Season.previous, h1, hy0]
  · have hm0 : ¬(s.month = 0) := by omega
    have hlt : ¬(s.month - 1 < 1) := by omega
    simp [Season.previous, hm0, hlt, h1]

theorem previous_rolls_back_witness :
    Season.previous ⟨2024, 1⟩ = some ⟨2023, 12⟩ := by
  have h := previous_rolls_back ⟨2024, 1⟩ (by decide) (by decide) (fun _ => by decide)
  simpa using h

/-- C9: deserializing any of the three tag kinds succeeds iff the input
string begins with the sigil `#`, and on success the tag wraps exactly
the input string, sigil included. -/
theorem tag_deserialize_sigil (s : String) :
    ((ClanTag.deserialize s).isSome = true ↔ startsWithSigil s = true)
    ∧ (∀ t, ClanTag.deserialize s = some t → t = ⟨s⟩)
    ∧ ((WarTag.deserialize s).isSome = true ↔ startsWithSigil s = true)
    ∧ (∀ t, WarTag.deserialize s = some t → t = ⟨s⟩)
    ∧ ((PlayerTag.deserialize s).isSome = true ↔ startsWithSigil s = true)
    ∧ (∀ t, PlayerTag.deserialize s = some t → t = ⟨s⟩) := by
  by_cases h : startsWithSigil s = true <;>
    simp [ClanTag.deserialize, WarTag.deserialize, PlayerTag.deserialize,
      tagVisitor, h]

theorem tag_deserialize_sigil_witness :
    (ClanTag.deserialize ("#A")).isSome = true
    ∧ (WarTag.deserialize ("noSigil")).isSome ≠ true :=
  ⟨(tag_deserialize_sigil ("#A")).1.mpr (by decide),
   fun hc => absurd ((tag_deserialize_sigil ("noSigil")).2.2.1.mp hc) (by decide)⟩

/-- C10: the games-score subtraction inside `players_summary` is
unguarded: a games record with `start_score = some st` and
`st > end_score` makes the member's summary computation hit the
underflow (panic) branch; under the precondition that every present
start is at most its end score, the computation is defined for every
member. -/
theorem games_score_underflow (cs : ClanStorage) (p : PlayerTag) :
    (∀ r st, lookupA cs.games p = some r → r.start_score = some st →
      r.end_score < st → cs.playerSummary p = none)
    ∧ ((∀ q r st, lookupA cs.games q = some r → r.start_score = some st →
        st ≤ r.end_score) → (cs.playerSummary p).isSome = true) := by
  constructor
  · intro r st hl hst hlt
    have hns : ¬(st ≤ r.end_score) := by omega
    simp [ClanStorage.playerSummary, hl, hst, checkedSub, hns]
  · intro hwf
    cases hl : lookupA cs.games p with
    | none => simp [ClanStorage.playerSummary, hl]
    | some r =>
      cases hst : r.start_score with
      | none => simp [ClanStorage.playerSummary, hl, hst, checkedSub]
      | some st =>
        have hle := hwf p r st hl hst
        simp [ClanStorage.playerSummary, hl, hst, checkedSub, hle]

theorem games_score_underflow_witness :
    clanSampleD.playerSummary ⟨"#P2"⟩ = none :=
  (games_score_underflow clanSampleD ⟨"#P2"⟩).1 ⟨some 50, 10⟩ 50
    (by decide) (by decide) (by decide)

end GoldPass
